import Mathlib

/-!
Verification of the `dfsm` deterministic finite-state machine engine.

The development shallowly embeds the two Python source files:

* `src/dfsm/models/fsm_model.py` — the pydantic model `FSMModel` and its
  referential-integrity validator `validate_transitions`;
* `src/dfsm/core/fsm.py` — the engine class `FSM` (construction,
  `transitions`, `_is_valid_state`, `_is_valid_input`, `get_output`, `run`).

Python sets become `List String` (only membership is used), Python dicts
become association lists with `dictGet` lookup (keys are unique in Python;
no theorem below depends on uniqueness), `Optional` fields become `Option`,
and raised `ValueError`s become `Except` errors carrying the offending
values that the Python message interpolates.
-/

namespace DFSM

/-- Construction-time errors. Each constructor corresponds to one
`ValueError` raised in `FSMModel.validate_transitions` (or, for
`fieldTooShort`, to a pydantic field-constraint `ValidationError` from the
`min_length=1` annotations on `states`, `alphabet` and `initial_state`),
and carries the value interpolated into the Python error message. -/
inductive DefError where
  | fieldTooShort (field : String)
  | sourceNotInStates (state : String)
  | targetNotInStates (next_state : String)
  | symbolNotInAlphabet (symbol : String)
  | initialNotInStates (state : String)
  | finalNotInStates (state : String)
  | stateOutputNotInStates (state : String)
  | transOutputStateNotInStates (state : String)
  | transOutputSymbolNotInAlphabet (symbol : String)
deriving DecidableEq, Repr

/-- Run-time errors of the engine. `invalidSymbol` and `invalidState` are
the two `ValueError`s raised in `FSM.run`; `transitionNotDefined` is the
`ValueError` raised in `FSM.transitions` on a missing key. Each carries
the values interpolated into the Python error message. -/
inductive RunError where
  | invalidSymbol (symbol : String)
  | invalidState (state : String)
  | transitionNotDefined (state : String) (symbol : String)
deriving DecidableEq, Repr

/-- The raw FSM definition, mirroring the fields of the pydantic model
`FSMModel` in `fsm_model.py` (states and alphabet are Python sets, the
three maps are Python dicts, the last three fields are `Optional`). -/
structure FSMModel where
  states : List String
  alphabet : List String
  transition_functions : List ((String × String) × String)
  initial_state : String
  final_states : Option (List String)
  state_outputs : Option (List (String × String))
  transition_outputs : Option (List ((String × String) × String))
deriving DecidableEq, Repr

/-- Python `dict.get(key)`: the value at `key`, or `none` when absent. -/
def dictGet {κ ν : Type} [BEq κ] (d : List (κ × ν)) (k : κ) : Option ν :=
  (d.find? (fun p => p.1 == k)).map (fun p => p.2)

/-- Python truthiness of an `Optional` collection: `None` and the empty
collection are falsy, a non-empty collection is truthy. This is the test
performed by `if self.state_outputs:` and friends. -/
def truthy {α : Type} : Option (List α) → Bool
  | none => false
  | some l => !l.isEmpty

/-- Loop of `validate_transitions` over `self.transition_functions.items()`
(`fsm_model.py` lines 38-44): check source state, then target state, then
symbol, raising on the first violation. -/
def checkTransitionEntries (states alphabet : List String) :
    List ((String × String) × String) → Except DefError Unit
  | [] => .ok ()
  | ((state, symbol), next_state) :: rest =>
    if !(states.contains state) then .error (.sourceNotInStates state)
    else if !(states.contains next_state) then .error (.targetNotInStates next_state)
    else if !(alphabet.contains symbol) then .error (.symbolNotInAlphabet symbol)
    else checkTransitionEntries states alphabet rest

/-- Loop of `validate_transitions` over `self.final_states`
(`fsm_model.py` lines 50-52). -/
def checkFinalEntries (states : List String) : List String → Except DefError Unit
  | [] => .ok ()
  | state :: rest =>
    if !(states.contains state) then .error (.finalNotInStates state)
    else checkFinalEntries states rest

/-- Loop of `validate_transitions` over the keys of `self.state_outputs`
(`fsm_model.py` lines 55-59). -/
def checkStateOutputEntries (states : List String) :
    List (String × String) → Except DefError Unit
  | [] => .ok ()
  | (state, _) :: rest =>
    if !(states.contains state) then .error (.stateOutputNotInStates state)
    else checkStateOutputEntries states rest

/-- Loop of `validate_transitions` over the keys of
`self.transition_outputs` (`fsm_model.py` lines 62-70): check the state,
then the symbol. -/
def checkTransOutputEntries (states alphabet : List String) :
    List ((String × String) × String) → Except DefError Unit
  | [] => .ok ()
  | ((state, symbol), _) :: rest =>
    if !(states.contains state) then .error (.transOutputStateNotInStates state)
    else if !(alphabet.contains symbol) then .error (.transOutputSymbolNotInAlphabet symbol)
    else checkTransOutputEntries states alphabet rest

/-- The guarded `final_states` block of `validate_transitions`: Python
`if self.final_states:` skips the loop when the field is `None` or empty
(both falsy); over an empty set the loop would do nothing anyway. -/
def FSMModel.checkFinalStates (m : FSMModel) : Except DefError Unit :=
  match m.final_states with
  | none => .ok ()
  | some fs => if fs.isEmpty then .ok () else checkFinalEntries m.states fs

/-- The guarded `state_outputs` block of `validate_transitions`. -/
def FSMModel.checkStateOutputs (m : FSMModel) : Except DefError Unit :=
  match m.state_outputs with
  | none => .ok ()
  | some so => if so.isEmpty then .ok () else checkStateOutputEntries m.states so

/-- The guarded `transition_outputs` block of `validate_transitions`. -/
def FSMModel.checkTransitionOutputs (m : FSMModel) : Except DefError Unit :=
  match m.transition_outputs with
  | none => .ok ()
  | some t => if t.isEmpty then .ok ()
              else checkTransOutputEntries m.states m.alphabet t

/-- `FSMModel.validate_transitions` (`fsm_model.py` lines 25-70): the
transition-map loop, then the initial-state check, then the three guarded
loops, in source order, stopping at the first violation. -/
def FSMModel.validate_transitions (m : FSMModel) : Except DefError Unit :=
  match checkTransitionEntries m.states m.alphabet m.transition_functions with
  | .error e => .error e
  | .ok _ =>
    if !(m.states.contains m.initial_state) then
      .error (.initialNotInStates m.initial_state)
    else
      match m.checkFinalStates with
      | .error e => .error e
      | .ok _ =>
        match m.checkStateOutputs with
        | .error e => .error e
        | .ok _ => m.checkTransitionOutputs

/-- The pydantic field constraints of `FSMModel`: `states`, `alphabet` and
`initial_state` are declared with `Field(..., min_length=1)`, so an empty
set of states, an empty alphabet, or an empty `initial_state` STRING makes
`FSMModel(...)` raise a `ValidationError` before `validate_transitions`
ever runs. -/
def FSMModel.field_constraints (m : FSMModel) : Except DefError Unit :=
  if m.states.isEmpty then .error (.fieldTooShort "states")
  else if m.alphabet.isEmpty then .error (.fieldTooShort "alphabet")
  else if m.initial_state.isEmpty then .error (.fieldTooShort "initial_state")
  else .ok ()

/-- `FSM.__init__` (`fsm.py` lines 11-54): instantiate the pydantic model
(field constraints), call `validate_transitions`, then copy every field
unchanged onto the engine. On success the engine holds exactly the fields
of the validated model, so construction is modelled as returning the
validated model itself; on failure no object is produced. -/
def FSM.make (m : FSMModel) : Except DefError FSMModel :=
  match m.field_constraints with
  | .error e => .error e
  | .ok _ =>
    match m.validate_transitions with
    | .error e => .error e
    | .ok _ => .ok m

/-- `FSM.transitions` (`fsm.py` lines 56-74): look up
`transition_functions[(state, input_symbol)]`, turning a `KeyError` into
the transition-not-defined `ValueError`. -/
def FSM.transitions (m : FSMModel) (state input_symbol : String) :
    Except RunError String :=
  match dictGet m.transition_functions (state, input_symbol) with
  | some next_state => .ok next_state
  | none => .error (.transitionNotDefined state input_symbol)

/-- `FSM._is_valid_state` (`fsm.py` lines 76-86). -/
def FSM.is_valid_state (m : FSMModel) (state : String) : Bool :=
  m.states.contains state

/-- `FSM._is_valid_input` (`fsm.py` lines 88-98). -/
def FSM.is_valid_input (m : FSMModel) (input_symbol : String) : Bool :=
  m.alphabet.contains input_symbol

/-- `FSM.get_output` (`fsm.py` lines 100-110):
`if self.transition_outputs and input_symbol is not None:` return the
Mealy lookup (possibly `None`); `elif self.state_outputs:` return the
Moore lookup (possibly `None`); else `None`. When the first condition
holds, `input_symbol` is `some`, so the `getD` defaults are never the
values actually used. -/
def FSM.get_output (m : FSMModel) (state : String)
    (input_symbol : Option String) : Option String :=
  if truthy m.transition_outputs && input_symbol.isSome then
    dictGet (m.transition_outputs.getD []) (state, input_symbol.getD "")
  else if truthy m.state_outputs then
    dictGet (m.state_outputs.getD []) state
  else
    none

/-- Result of `FSM.run`: the Python method returns the final state alone,
or the pair `(final state, outputs)` when `collect_outputs` is true. -/
inductive RunResult where
  | state (final : String)
  | stateWithOutputs (final : String) (outputs : List (Option String))
deriving DecidableEq, Repr

/-- The loop of `FSM.run` (`fsm.py` lines 117-127), one iteration per
input symbol: check the symbol, check the current state, sample
`get_output(current_state, input_symbol)` BEFORE the move, then advance
through `transitions`. The sampled outputs are accumulated unconditionally
here; `FSM.run` below discards them when `collect_outputs` is false,
which matches the Python loop where the `outputs` list is only ever
consulted when `collect_outputs` is true. -/
def FSM.runAux (m : FSMModel) :
    String → List String → Except RunError (String × List (Option String))
  | current_state, [] => .ok (current_state, [])
  | current_state, input_symbol :: rest =>
    if !(FSM.is_valid_input m input_symbol) then
      .error (.invalidSymbol input_symbol)
    else if !(FSM.is_valid_state m current_state) then
      .error (.invalidState current_state)
    else
      match FSM.transitions m current_state input_symbol with
      | .error e => .error e
      | .ok next =>
        match FSM.runAux m next rest with
        | .error e => .error e
        | .ok (final, outs) =>
          .ok (final, FSM.get_output m current_state (some input_symbol) :: outs)

/-- `FSM.run` (`fsm.py` lines 112-132): fold the loop from
`initial_state`; afterwards, when collecting, append the trailing
`get_output(current_state)` sample (no symbol) and return the pair,
otherwise return the final state alone. -/
def FSM.run (m : FSMModel) (input_sequence : List String)
    (collect_outputs : Bool) : Except RunError RunResult :=
  match FSM.runAux m m.initial_state input_sequence with
  | .error e => .error e
  | .ok (final, outs) =>
    if collect_outputs then
      .ok (.stateWithOutputs final (outs ++ [FSM.get_output m final none]))
    else
      .ok (.state final)

/-! ## Specification-side definitions -/

/-- The six referential-integrity invariants of spec §3, as one decidable
predicate over the raw definition: transition sources, targets in
`states` and symbols in `alphabet` (invariants 1-2), `initial_state` in
`states` (3), `final_states` a subset of `states` (4), `state_outputs`
keys in `states` (5), `transition_outputs` keys with state in `states`
and symbol in `alphabet` (6). -/
def invariantsHold (m : FSMModel) : Bool :=
  m.transition_functions.all
    (fun p => m.states.contains p.1.1 && m.states.contains p.2
      && m.alphabet.contains p.1.2)
  && m.states.contains m.initial_state
  && (match m.final_states with
      | none => true
      | some fs => fs.all (fun s => m.states.contains s))
  && (match m.state_outputs with
      | none => true
      | some so => so.all (fun p => m.states.contains p.1))
  && (match m.transition_outputs with
      | none => true
      | some t => t.all (fun p => m.states.contains p.1.1
          && m.alphabet.contains p.1.2))

/-- A construction error is genuine for a definition when the value it
names really violates the corresponding invariant of that definition:
the error names the offending state, symbol or field and that offender
actually occurs where the error says it does. -/
def DefError.genuine (m : FSMModel) : DefError → Prop
  | .fieldTooShort f =>
      (f = "states" ∧ m.states.isEmpty = true)
      ∨ (f = "alphabet" ∧ m.alphabet.isEmpty = true)
      ∨ (f = "initial_state" ∧ m.initial_state.isEmpty = true)
  | .sourceNotInStates s =>
      m.states.contains s = false ∧ ∃ p ∈ m.transition_functions, p.1.1 = s
  | .targetNotInStates t =>
      m.states.contains t = false ∧ ∃ p ∈ m.transition_functions, p.2 = t
  | .symbolNotInAlphabet a =>
      m.alphabet.contains a = false ∧ ∃ p ∈ m.transition_functions, p.1.2 = a
  | .initialNotInStates s =>
      s = m.initial_state ∧ m.states.contains s = false
  | .finalNotInStates s =>
      m.states.contains s = false
      ∧ ∃ fs, m.final_states = some fs ∧ s ∈ fs
  | .stateOutputNotInStates s =>
      m.states.contains s = false
      ∧ ∃ so, m.state_outputs = some so ∧ ∃ p ∈ so, p.1 = s
  | .transOutputStateNotInStates s =>
      m.states.contains s = false
      ∧ ∃ t, m.transition_outputs = some t ∧ ∃ p ∈ t, p.1.1 = s
  | .transOutputSymbolNotInAlphabet a =>
      m.alphabet.contains a = false
      ∧ ∃ t, m.transition_outputs = some t ∧ ∃ p ∈ t, p.1.2 = a

/-- A run-time error is genuine for a definition and an input sequence
when the value it names really is an offender there: an invalid symbol is
an input symbol outside the alphabet, an invalid state is outside the
state set, an undefined transition names a pair with an input symbol of
the sequence and no entry in the transition map. -/
def RunError.genuine (m : FSMModel) (seq : List String) : RunError → Prop
  | .invalidSymbol a => a ∈ seq ∧ m.alphabet.contains a = false
  | .invalidState s => m.states.contains s = false
  | .transitionNotDefined s a =>
      a ∈ seq ∧ dictGet m.transition_functions (s, a) = none

/-- Detects the defensive invalid-state error among the possible outcomes
of a run. -/
def isInvalidStateError {α : Type} : Except RunError α → Bool
  | .error (.invalidState _) => true
  | _ => false

/-- The sequence of states the machine passes through when every
transition lookup along the input succeeds, starting from `current`:
`path.get i` is the state just before the i-th transition fires, and the
last entry is the state after the whole input. `none` when some lookup
is undefined. -/
def executionPath (m : FSMModel) : String → List String → Option (List String)
  | current, [] => some [current]
  | current, input_symbol :: rest =>
    match dictGet m.transition_functions (current, input_symbol) with
    | none => none
    | some next =>
      match executionPath m next rest with
      | none => none
      | some p => some (current :: p)

/-- All construction errors a definition can fail with name a genuine
offender of that definition. -/
def makeErrorGenuine (m : FSMModel) : Prop :=
  ∀ e, FSM.make m = .error e → DefError.genuine m e

/-- The collected trace is exactly the pre-transition samples along the
execution path, followed by the trailing no-symbol sample of the final
state: `trace[i] = get_output(path[i], seq[i])` where `path[i]` is the
state just before the i-th transition fires, and the last trace element
is `get_output(f)` with no symbol. -/
def traceMatchesPath (m : FSMModel) (seq : List String) (f : String)
    (trace : List (Option String)) : Prop :=
  ∃ path, executionPath m m.initial_state seq = some path ∧
    path.getLast? = some f ∧
    trace = (List.zipWith (fun s a => FSM.get_output m s (some a)) path seq)
      ++ [FSM.get_output m f none]

/-! ## Example machines (from spec §8 scenarios) -/

/-- A raw definition whose six referential-integrity invariants all hold
(its `initial_state`, the empty string, is a member of `states`) but whose
`initial_state` violates the pydantic `min_length=1` field constraint. -/
def emptyNameInitial : FSMModel :=
  { states := [""]
    alphabet := ["a"]
    transition_functions := []
    initial_state := ""
    final_states := none
    state_outputs := none
    transition_outputs := none }

/-- The Moore traffic light of spec §8: alphabet is the single symbol
`Timer`, so the three listed transitions cover every (state, symbol)
pair. -/
def trafficLight : FSMModel :=
  { states := ["Red", "Yellow", "Green"]
    alphabet := ["Timer"]
    transition_functions :=
      [(("Red", "Timer"), "Green"), (("Green", "Timer"), "Yellow"),
       (("Yellow", "Timer"), "Red")]
    initial_state := "Red"
    final_states := none
    state_outputs := some [("Red", "STOP"), ("Yellow", "CAUTION"), ("Green", "GO")]
    transition_outputs := none }

/-- The lock/unlock DFA of spec §8. -/
def lockFSM : FSMModel :=
  { states := ["Locked", "Unlocked"]
    alphabet := ["Coin", "Push"]
    transition_functions :=
      [(("Locked", "Push"), "Locked"), (("Locked", "Coin"), "Unlocked"),
       (("Unlocked", "Push"), "Locked"), (("Unlocked", "Coin"), "Unlocked")]
    initial_state := "Locked"
    final_states := some ["Unlocked"]
    state_outputs := none
    transition_outputs := none }

/-- A machine with both Moore and Mealy outputs configured, used to
exercise the output-precedence rule on concrete inputs. -/
def mixedOutputs : FSMModel :=
  { states := ["A", "B"]
    alphabet := ["x", "y"]
    transition_functions := [(("A", "x"), "B"), (("A", "y"), "A")]
    initial_state := "A"
    final_states := none
    state_outputs := some [("A", "mooreA"), ("B", "mooreB")]
    transition_outputs := some [(("A", "x"), "mealyAx")] }

/-! ## Helper lemmas -/

theorem truthy_eq_true_iff {α : Type} {o : Option (List α)} :
    truthy o = true ↔ ∃ l, o = some l ∧ l.isEmpty = false := by
  cases o <;> simp [truthy]

@[simp]
theorem truthy_none {α : Type} : truthy (none : Option (List α)) = false := rfl

@[simp]
theorem truthy_some_nil {α : Type} : truthy (some ([] : List α)) = false := rfl

theorem dictGet_some_mem {κ ν : Type} [BEq κ] [LawfulBEq κ]
    {d : List (κ × ν)} {k : κ} {v : ν} (h : dictGet d k = some v) :
    (k, v) ∈ d := by
  unfold dictGet at h
  obtain ⟨q, hq, hv⟩ := Option.map_eq_some'.mp h
  have hmem := List.mem_of_find?_eq_some hq
  have hk : q.1 = k := by
    have hkey := List.find?_some hq
    simpa using hkey
  obtain ⟨qk, qv⟩ := q
  simp only at hk hv
  subst hk
  subst hv
  exact hmem

/-! ## Validator lemmas -/

theorem checkTransitionEntries_ok_iff {st al : List String}
    {l : List ((String × String) × String)} :
    checkTransitionEntries st al l = .ok () ↔
    l.all (fun p => st.contains p.1.1 && st.contains p.2
      && al.contains p.1.2) = true := by
  induction l with
  | nil => simp [checkTransitionEntries]
  | cons p rest ih =>
    obtain ⟨⟨s, a⟩, t⟩ := p
    by_cases hs : s ∈ st <;> by_cases ht : t ∈ st <;> by_cases ha : a ∈ al <;>
      simp [checkTransitionEntries, hs, ht, ha, ih]

theorem checkTransitionEntries_error {st al : List String}
    {l : List ((String × String) × String)} {e : DefError}
    (h : checkTransitionEntries st al l = .error e) :
    (∃ s, e = .sourceNotInStates s ∧ st.contains s = false
      ∧ ∃ p ∈ l, p.1.1 = s) ∨
    (∃ t, e = .targetNotInStates t ∧ st.contains t = false
      ∧ ∃ p ∈ l, p.2 = t) ∨
    (∃ a, e = .symbolNotInAlphabet a ∧ al.contains a = false
      ∧ ∃ p ∈ l, p.1.2 = a) := by
  induction l with
  | nil => simp [checkTransitionEntries] at h
  | cons p rest ih =>
    obtain ⟨⟨s, a⟩, t⟩ := p
    unfold checkTransitionEntries at h
    by_cases hs : s ∈ st
    · by_cases ht : t ∈ st
      · by_cases ha : a ∈ al
        · simp [hs, ht, ha] at h
          rcases ih h with ⟨x, he, hc, q, hq, hx⟩ | ⟨x, he, hc, q, hq, hx⟩
            | ⟨x, he, hc, q, hq, hx⟩
          · exact Or.inl ⟨x, he, hc, q, List.mem_cons_of_mem _ hq, hx⟩
          · exact Or.inr (Or.inl ⟨x, he, hc, q, List.mem_cons_of_mem _ hq, hx⟩)
          · exact Or.inr (Or.inr ⟨x, he, hc, q, List.mem_cons_of_mem _ hq, hx⟩)
        · simp [hs, ht, ha] at h
          exact Or.inr (Or.inr ⟨a, by first | exact h.symm | exact h,
            by simpa using ha, ((s, a), t), by simp, rfl⟩)
      · simp [hs, ht] at h
        exact Or.inr (Or.inl ⟨t, by first | exact h.symm | exact h,
          by simpa using ht, ((s, a), t), by simp, rfl⟩)
    · simp [hs] at h
      exact Or.inl ⟨s, by first | exact h.symm | exact h,
        by simpa using hs, ((s, a), t), by simp, rfl⟩

theorem checkFinalEntries_ok_iff {st : List String} {l : List String} :
    checkFinalEntries st l = .ok () ↔
    l.all (fun s => st.contains s) = true := by
  induction l with
  | nil => simp [checkFinalEntries]
  | cons s rest ih =>
    by_cases hs : s ∈ st <;> simp [checkFinalEntries, hs, ih]

theorem checkFinalEntries_error {st : List String} {l : List String}
    {e : DefError} (h : checkFinalEntries st l = .error e) :
    ∃ s, e = .finalNotInStates s ∧ st.contains s = false ∧ s ∈ l := by
  induction l with
  | nil => simp [checkFinalEntries] at h
  | cons s rest ih =>
    unfold checkFinalEntries at h
    by_cases hs : s ∈ st
    · simp [hs] at h
      obtain ⟨x, he, hc, hx⟩ := ih h
      exact ⟨x, he, hc, List.mem_cons_of_mem _ hx⟩
    · simp [hs] at h
      exact ⟨s, by first | exact h.symm | exact h, by simpa using hs, by simp⟩

theorem checkStateOutputEntries_ok_iff {st : List String}
    {l : List (String × String)} :
    checkStateOutputEntries st l = .ok () ↔
    l.all (fun p => st.contains p.1) = true := by
  induction l with
  | nil => simp [checkStateOutputEntries]
  | cons p rest ih =>
    obtain ⟨s, v⟩ := p
    by_cases hs : s ∈ st <;> simp [checkStateOutputEntries, hs, ih]

theorem checkStateOutputEntries_error {st : List String}
    {l : List (String × String)} {e : DefError}
    (h : checkStateOutputEntries st l = .error e) :
    ∃ s, e = .stateOutputNotInStates s ∧ st.contains s = false
      ∧ ∃ p ∈ l, p.1 = s := by
  induction l with
  | nil => simp [checkStateOutputEntries] at h
  | cons p rest ih =>
    obtain ⟨s, v⟩ := p
    unfold checkStateOutputEntries at h
    by_cases hs : s ∈ st
    · simp [hs] at h
      obtain ⟨x, he, hc, q, hq, hx⟩ := ih h
      exact ⟨x, he, hc, q, List.mem_cons_of_mem _ hq, hx⟩
    · simp [hs] at h
      exact ⟨s, by first | exact h.symm | exact h, by simpa using hs,
        (s, v), by simp, rfl⟩

theorem checkTransOutputEntries_ok_iff {st al : List String}
    {l : List ((String × String) × String)} :
    checkTransOutputEntries st al l = .ok () ↔
    l.all (fun p => st.contains p.1.1 && al.contains p.1.2) = true := by
  induction l with
  | nil => simp [checkTransOutputEntries]
  | cons p rest ih =>
    obtain ⟨⟨s, a⟩, v⟩ := p
    by_cases hs : s ∈ st <;> by_cases ha : a ∈ al <;>
      simp [checkTransOutputEntries, hs, ha, ih]

theorem checkTransOutputEntries_error {st al : List String}
    {l : List ((String × String) × String)} {e : DefError}
    (h : checkTransOutputEntries st al l = .error e) :
    (∃ s, e = .transOutputStateNotInStates s ∧ st.contains s = false
      ∧ ∃ p ∈ l, p.1.1 = s) ∨
    (∃ a, e = .transOutputSymbolNotInAlphabet a ∧ al.contains a = false
      ∧ ∃ p ∈ l, p.1.2 = a) := by
  induction l with
  | nil => simp [checkTransOutputEntries] at h
  | cons p rest ih =>
    obtain ⟨⟨s, a⟩, v⟩ := p
    unfold checkTransOutputEntries at h
    by_cases hs : s ∈ st
    · by_cases ha : a ∈ al
      · simp [hs, ha] at h
        rcases ih h with ⟨x, he, hc, q, hq, hx⟩ | ⟨x, he, hc, q, hq, hx⟩
        · exact Or.inl ⟨x, he, hc, q, List.mem_cons_of_mem _ hq, hx⟩
        · exact Or.inr ⟨x, he, hc, q, List.mem_cons_of_mem _ hq, hx⟩
      · simp [hs, ha] at h
        exact Or.inr ⟨a, by first | exact h.symm | exact h,
          by simpa using ha, ((s, a), v), by simp, rfl⟩
    · simp [hs] at h
      exact Or.inl ⟨s, by first | exact h.symm | exact h,
        by simpa using hs, ((s, a), v), by simp, rfl⟩

theorem checkFinalStates_ok_iff {m : FSMModel} :
    m.checkFinalStates = .ok () ↔
    (match m.final_states with
     | none => true
     | some fs => fs.all (fun s => m.states.contains s)) = true := by
  unfold FSMModel.checkFinalStates
  cases m.final_states with
  | none => simp
  | some fs =>
    cases hfe : fs.isEmpty with
    | true =>
      have hnil : fs = [] := by simpa using hfe
      subst hnil
      simp
    | false => simp [hfe, checkFinalEntries_ok_iff]

theorem checkFinalStates_error {m : FSMModel} {e : DefError}
    (h : m.checkFinalStates = .error e) :
    ∃ s, e = .finalNotInStates s ∧ m.states.contains s = false
      ∧ ∃ fs, m.final_states = some fs ∧ s ∈ fs := by
  unfold FSMModel.checkFinalStates at h
  cases hfs : m.final_states with
  | none => rw [hfs] at h; simp at h
  | some fs =>
    rw [hfs] at h
    replace h : (if fs.isEmpty then (Except.ok () : Except DefError Unit)
        else checkFinalEntries m.states fs) = .error e := h
    cases hfe : fs.isEmpty with
    | true => rw [hfe] at h; simp at h
    | false =>
      rw [hfe] at h
      replace h : checkFinalEntries m.states fs = .error e := h
      obtain ⟨s, he, hc, hx⟩ := checkFinalEntries_error h
      exact ⟨s, he, hc, fs, rfl, hx⟩

theorem checkStateOutputs_ok_iff {m : FSMModel} :
    m.checkStateOutputs = .ok () ↔
    (match m.state_outputs with
     | none => true
     | some so => so.all (fun p => m.states.contains p.1)) = true := by
  unfold FSMModel.checkStateOutputs
  cases m.state_outputs with
  | none => simp
  | some so =>
    cases hfe : so.isEmpty with
    | true =>
      have hnil : so = [] := by simpa using hfe
      subst hnil
      simp
    | false => simp [hfe, checkStateOutputEntries_ok_iff]

theorem checkStateOutputs_error {m : FSMModel} {e : DefError}
    (h : m.checkStateOutputs = .error e) :
    ∃ s, e = .stateOutputNotInStates s ∧ m.states.contains s = false
      ∧ ∃ so, m.state_outputs = some so ∧ ∃ p ∈ so, p.1 = s := by
  unfold FSMModel.checkStateOutputs at h
  cases hso : m.state_outputs with
  | none => rw [hso] at h; simp at h
  | some so =>
    rw [hso] at h
    replace h : (if so.isEmpty then (Except.ok () : Except DefError Unit)
        else checkStateOutputEntries m.states so) = .error e := h
    cases hfe : so.isEmpty with
    | true => rw [hfe] at h; simp at h
    | false =>
      rw [hfe] at h
      replace h : checkStateOutputEntries m.states so = .error e := h
      obtain ⟨s, he, hc, q, hq, hx⟩ := checkStateOutputEntries_error h
      exact ⟨s, he, hc, so, rfl, q, hq, hx⟩

theorem checkTransitionOutputs_ok_iff {m : FSMModel} :
    m.checkTransitionOutputs = .ok () ↔
    (match m.transition_outputs with
     | none => true
     | some t => t.all (fun p => m.states.contains p.1.1
         && m.alphabet.contains p.1.2)) = true := by
  unfold FSMModel.checkTransitionOutputs
  cases m.transition_outputs with
  | none => simp
  | some t =>
    cases hfe : t.isEmpty with
    | true =>
      have hnil : t = [] := by simpa using hfe
      subst hnil
      simp
    | false => simp [hfe, checkTransOutputEntries_ok_iff]

theorem checkTransitionOutputs_error {m : FSMModel} {e : DefError}
    (h : m.checkTransitionOutputs = .error e) :
    (∃ s, e = .transOutputStateNotInStates s ∧ m.states.contains s = false
      ∧ ∃ t, m.transition_outputs = some t ∧ ∃ p ∈ t, p.1.1 = s) ∨
    (∃ a, e = .transOutputSymbolNotInAlphabet a
      ∧ m.alphabet.contains a = false
      ∧ ∃ t, m.transition_outputs = some t ∧ ∃ p ∈ t, p.1.2 = a) := by
  unfold FSMModel.checkTransitionOutputs at h
  cases hto : m.transition_outputs with
  | none => rw [hto] at h; simp at h
  | some t =>
    rw [hto] at h
    replace h : (if t.isEmpty then (Except.ok () : Except DefError Unit)
        else checkTransOutputEntries m.states m.alphabet t) = .error e := h
    cases hfe : t.isEmpty with
    | true => rw [hfe] at h; simp at h
    | false =>
      rw [hfe] at h
      replace h : checkTransOutputEntries m.states m.alphabet t = .error e := h
      rcases checkTransOutputEntries_error h with ⟨s, he, hc, q, hq, hx⟩
        | ⟨a, he, hc, q, hq, hx⟩
      · exact Or.inl ⟨s, he, hc, t, rfl, q, hq, hx⟩
      · exact Or.inr ⟨a, he, hc, t, rfl, q, hq, hx⟩

theorem validate_eq_ok_iff_parts {m : FSMModel} :
    m.validate_transitions = .ok () ↔
    (checkTransitionEntries m.states m.alphabet m.transition_functions = .ok ()
     ∧ m.states.contains m.initial_state = true
     ∧ m.checkFinalStates = .ok ()
     ∧ m.checkStateOutputs = .ok ()
     ∧ m.checkTransitionOutputs = .ok ()) := by
  unfold FSMModel.validate_transitions
  cases h1 : checkTransitionEntries m.states m.alphabet m.transition_functions with
  | error e => simp [h1]
  | ok u =>
    cases u
    cases hi : m.states.contains m.initial_state with
    | false => simp [hi]
    | true =>
      cases h2 : m.checkFinalStates with
      | error e => simp [hi, h2]
      | ok u =>
        cases u
        cases h3 : m.checkStateOutputs with
        | error e => simp [hi, h2, h3]
        | ok u =>
          cases u
          simp [hi, h2, h3]

theorem validate_ok_iff {m : FSMModel} :
    m.validate_transitions = .ok () ↔ invariantsHold m = true := by
  rw [validate_eq_ok_iff_parts, checkTransitionEntries_ok_iff,
    checkFinalStates_ok_iff, checkStateOutputs_ok_iff,
    checkTransitionOutputs_ok_iff]
  simp [invariantsHold, Bool.and_eq_true, and_assoc]

theorem validate_eq_error_parts {m : FSMModel} {e : DefError}
    (h : m.validate_transitions = .error e) :
    checkTransitionEntries m.states m.alphabet m.transition_functions
      = .error e
    ∨ (e = .initialNotInStates m.initial_state
        ∧ m.states.contains m.initial_state = false)
    ∨ m.checkFinalStates = .error e
    ∨ m.checkStateOutputs = .error e
    ∨ m.checkTransitionOutputs = .error e := by
  unfold FSMModel.validate_transitions at h
  cases h1 : checkTransitionEntries m.states m.alphabet m.transition_functions with
  | error e1 =>
    rw [h1] at h
    replace h : (Except.error e1 : Except DefError Unit) = .error e := h
    injection h with he
    subst he
    exact Or.inl (by first | rfl | exact h1)
  | ok u =>
    cases u
    rw [h1] at h
    cases hb : m.states.contains m.initial_state with
    | false =>
      rw [hb] at h
      replace h : (Except.error (DefError.initialNotInStates m.initial_state)
          : Except DefError Unit) = .error e := h
      injection h with he
      subst he
      exact Or.inr (Or.inl ⟨rfl, by first | rfl | exact hb⟩)
    | true =>
      rw [hb] at h
      cases h2 : m.checkFinalStates with
      | error e2 =>
        rw [h2] at h
        replace h : (Except.error e2 : Except DefError Unit) = .error e := h
        injection h with he
        subst he
        exact Or.inr (Or.inr (Or.inl (by first | rfl | exact h2)))
      | ok u =>
        cases u
        rw [h2] at h
        cases h3 : m.checkStateOutputs with
        | error e3 =>
          rw [h3] at h
          replace h : (Except.error e3 : Except DefError Unit) = .error e := h
          injection h with he
          subst he
          exact Or.inr (Or.inr (Or.inr (Or.inl (by first | rfl | exact h3))))
        | ok u =>
          cases u
          rw [h3] at h
          replace h : m.checkTransitionOutputs = .error e := h
          exact Or.inr (Or.inr (Or.inr (Or.inr h)))

theorem validate_error_genuine {m : FSMModel} {e : DefError}
    (h : m.validate_transitions = .error e) : e.genuine m := by
  rcases validate_eq_error_parts h with h1 | ⟨he, hb⟩ | h2 | h3 | h4
  · rcases checkTransitionEntries_error h1 with ⟨s, he, hc, hp⟩
      | ⟨t, he, hc, hp⟩ | ⟨a, he, hc, hp⟩ <;> subst he <;> exact ⟨hc, hp⟩
  · subst he
    exact ⟨rfl, hb⟩
  · obtain ⟨s, he, hc, fs, hfs, hx⟩ := checkFinalStates_error h2
    subst he
    exact ⟨hc, fs, hfs, hx⟩
  · obtain ⟨s, he, hc, so, hso, hx⟩ := checkStateOutputs_error h3
    subst he
    exact ⟨hc, so, hso, hx⟩
  · rcases checkTransitionOutputs_error h4 with ⟨s, he, hc, t, hto, hx⟩
      | ⟨a, he, hc, t, hto, hx⟩ <;> subst he
    · exact ⟨hc, t, hto, hx⟩
    · exact ⟨hc, t, hto, hx⟩

theorem make_ok_iff {m : FSMModel} (h1 : m.states.isEmpty = false)
    (h2 : m.alphabet.isEmpty = false) (h3 : m.initial_state.isEmpty = false) :
    FSM.make m = .ok m ↔ invariantsHold m = true := by
  unfold FSM.make
  have hf : m.field_constraints = .ok () := by
    unfold FSMModel.field_constraints
    simp [h1, h2, h3]
  rw [hf]
  show (match m.validate_transitions with
        | .error e => (.error e : Except DefError FSMModel)
        | .ok _ => .ok m) = .ok m ↔ invariantsHold m = true
  rw [← validate_ok_iff]
  cases hv : m.validate_transitions with
  | error e => simp
  | ok u => cases u; simp

theorem make_error_genuine (m : FSMModel) : makeErrorGenuine m := by
  intro e h
  unfold FSM.make at h
  cases hf : m.field_constraints with
  | error e1 =>
    rw [hf] at h
    replace h : (Except.error e1 : Except DefError FSMModel) = .error e := h
    injection h with he
    subst he
    unfold FSMModel.field_constraints at hf
    cases hs : m.states.isEmpty with
    | true =>
      rw [hs] at hf
      replace hf : (Except.error (DefError.fieldTooShort "states")
          : Except DefError Unit) = .error e1 := hf
      injection hf with he1
      subst he1
      exact Or.inl ⟨rfl, hs⟩
    | false =>
      rw [hs] at hf
      cases ha : m.alphabet.isEmpty with
      | true =>
        rw [ha] at hf
        replace hf : (Except.error (DefError.fieldTooShort "alphabet")
            : Except DefError Unit) = .error e1 := hf
        injection hf with he1
        subst he1
        exact Or.inr (Or.inl ⟨rfl, ha⟩)
      | false =>
        rw [ha] at hf
        cases hi : m.initial_state.isEmpty with
        | true =>
          rw [hi] at hf
          replace hf : (Except.error (DefError.fieldTooShort "initial_state")
              : Except DefError Unit) = .error e1 := hf
          injection hf with he1
          subst he1
          exact Or.inr (Or.inr ⟨rfl, hi⟩)
        | false =>
          rw [hi] at hf
          simp at hf
  | ok u =>
    cases u
    rw [hf] at h
    replace h : (match m.validate_transitions with
        | .error e => (.error e : Except DefError FSMModel)
        | .ok _ => .ok m) = .error e := h
    cases hv : m.validate_transitions with
    | error e2 =>
      rw [hv] at h
      replace h : (Except.error e2 : Except DefError FSMModel) = .error e := h
      injection h with he
      subst he
      exact validate_error_genuine hv
    | ok u =>
      cases u
      rw [hv] at h
      simp at h

/-! ## Run-loop lemmas -/

theorem runAux_cons_ok_iff {m : FSMModel} {cur a : String} {rest : List String}
    {f : String} {outs : List (Option String)} :
    FSM.runAux m cur (a :: rest) = .ok (f, outs) ↔
    ∃ next outs0,
      FSM.is_valid_input m a = true ∧ FSM.is_valid_state m cur = true ∧
      dictGet m.transition_functions (cur, a) = some next ∧
      FSM.runAux m next rest = .ok (f, outs0) ∧
      outs = FSM.get_output m cur (some a) :: outs0 := by
  constructor
  · intro h
    unfold FSM.runAux at h
    cases hv1 : FSM.is_valid_input m a with
    | false => rw [hv1] at h; simp at h
    | true =>
      rw [hv1] at h
      cases hv2 : FSM.is_valid_state m cur with
      | false => rw [hv2] at h; simp at h
      | true =>
        rw [hv2] at h
        replace h : (match FSM.transitions m cur a with
          | .error e => (.error e : Except RunError (String × List (Option String)))
          | .ok next =>
            match FSM.runAux m next rest with
            | .error e => .error e
            | .ok (final, outs1) =>
              .ok (final, FSM.get_output m cur (some a) :: outs1))
          = .ok (f, outs) := h
        unfold FSM.transitions at h
        cases hd : dictGet m.transition_functions (cur, a) with
        | none => rw [hd] at h; simp at h
        | some next =>
          rw [hd] at h
          replace h : (match FSM.runAux m next rest with
            | .error e => (.error e : Except RunError (String × List (Option String)))
            | .ok (final, outs1) =>
              .ok (final, FSM.get_output m cur (some a) :: outs1))
            = .ok (f, outs) := h
          cases hrec : FSM.runAux m next rest with
          | error e2 => rw [hrec] at h; simp at h
          | ok p =>
            obtain ⟨f0, outs0⟩ := p
            rw [hrec] at h
            simp at h
            obtain ⟨hf, ho⟩ := h
            exact ⟨next, outs0, rfl, rfl, rfl, by rw [hf] at hrec; exact hrec,
              ho.symm⟩
  · rintro ⟨next, outs0, h1, h2, h3, h4, h5⟩
    subst h5
    simp [FSM.runAux, FSM.transitions, h1, h2, h3, h4]

theorem runAux_ok_length {m : FSMModel} : ∀ {seq : List String} {cur f : String}
    {outs : List (Option String)},
    FSM.runAux m cur seq = .ok (f, outs) → outs.length = seq.length := by
  intro seq
  induction seq with
  | nil =>
    intro cur f outs h
    simp [FSM.runAux] at h
    simp [← h.2]
  | cons a rest ih =>
    intro cur f outs h
    obtain ⟨next, outs0, -, -, -, h4, h5⟩ := runAux_cons_ok_iff.mp h
    subst h5
    simp [ih h4]

theorem runAux_ok_path {m : FSMModel} : ∀ {seq : List String} {cur f : String}
    {outs : List (Option String)},
    FSM.runAux m cur seq = .ok (f, outs) →
    ∃ path, executionPath m cur seq = some path ∧ path.getLast? = some f ∧
      outs = List.zipWith (fun s a => FSM.get_output m s (some a)) path seq := by
  intro seq
  induction seq with
  | nil =>
    intro cur f outs h
    simp [FSM.runAux] at h
    obtain ⟨h1, h2⟩ := h
    exact ⟨[cur], rfl, by simp [h1], by simp [← h2]⟩
  | cons a rest ih =>
    intro cur f outs h
    obtain ⟨next, outs0, -, -, h3, h4, h5⟩ := runAux_cons_ok_iff.mp h
    obtain ⟨path0, hp0, hl0, hz0⟩ := ih h4
    subst h5
    refine ⟨cur :: path0, ?_, ?_, ?_⟩
    · simp [executionPath, h3, hp0]
    · cases path0 with
      | nil => simp at hl0
      | cons p0 ps =>
        rw [List.getLast?_cons_cons]
        exact hl0
    · simp [hz0]

theorem runError_genuine_mono {m : FSMModel} {seq seq2 : List String}
    {e : RunError} (hsub : ∀ x, x ∈ seq → x ∈ seq2)
    (h : RunError.genuine m seq e) : RunError.genuine m seq2 e := by
  cases e with
  | invalidSymbol a => exact ⟨hsub a h.1, h.2⟩
  | invalidState s => exact h
  | transitionNotDefined s a => exact ⟨hsub a h.1, h.2⟩

theorem runAux_error_genuine {m : FSMModel} : ∀ {seq : List String}
    {cur : String} {e : RunError},
    FSM.runAux m cur seq = .error e → RunError.genuine m seq e := by
  intro seq
  induction seq with
  | nil => intro cur e h; simp [FSM.runAux] at h
  | cons a rest ih =>
    intro cur e h
    unfold FSM.runAux at h
    cases hv1 : FSM.is_valid_input m a with
    | false =>
      rw [hv1] at h
      replace h : (Except.error (RunError.invalidSymbol a)
          : Except RunError (String × List (Option String))) = .error e := h
      injection h with he
      subst he
      exact ⟨List.mem_cons_self a rest, by simpa [FSM.is_valid_input] using hv1⟩
    | true =>
      rw [hv1] at h
      cases hv2 : FSM.is_valid_state m cur with
      | false =>
        rw [hv2] at h
        replace h : (Except.error (RunError.invalidState cur)
            : Except RunError (String × List (Option String))) = .error e := h
        injection h with he
        subst he
        exact (by simpa [FSM.is_valid_state] using hv2 :
          m.states.contains cur = false)
      | true =>
        rw [hv2] at h
        replace h : (match FSM.transitions m cur a with
          | .error e => (.error e : Except RunError (String × List (Option String)))
          | .ok next =>
            match FSM.runAux m next rest with
            | .error e => .error e
            | .ok (final, outs1) =>
              .ok (final, FSM.get_output m cur (some a) :: outs1))
          = .error e := h
        unfold FSM.transitions at h
        cases hd : dictGet m.transition_functions (cur, a) with
        | none =>
          rw [hd] at h
          replace h : (Except.error (RunError.transitionNotDefined cur a)
              : Except RunError (String × List (Option String))) = .error e := h
          injection h with he
          subst he
          exact ⟨List.mem_cons_self a rest, hd⟩
        | some next =>
          rw [hd] at h
          replace h : (match FSM.runAux m next rest with
            | .error e => (.error e : Except RunError (String × List (Option String)))
            | .ok (final, outs1) =>
              .ok (final, FSM.get_output m cur (some a) :: outs1))
            = .error e := h
          cases hrec : FSM.runAux m next rest with
          | error e2 =>
            rw [hrec] at h
            replace h : (Except.error e2
                : Except RunError (String × List (Option String))) = .error e := h
            injection h with he
            subst he
            exact runError_genuine_mono (fun x hx => List.mem_cons_of_mem a hx)
              (ih hrec)
          | ok p =>
            obtain ⟨f0, outs0⟩ := p
            rw [hrec] at h
            simp at h

theorem runAux_error_extend {m : FSMModel} : ∀ {seq : List String}
    {cur : String} {e : RunError} (ext : List String),
    FSM.runAux m cur seq = .error e →
    FSM.runAux m cur (seq ++ ext) = .error e := by
  intro seq
  induction seq with
  | nil => intro cur e ext h; simp [FSM.runAux] at h
  | cons a rest ih =>
    intro cur e ext h
    unfold FSM.runAux at h
    rw [List.cons_append]
    unfold FSM.runAux
    cases hv1 : FSM.is_valid_input m a with
    | false =>
      simp [hv1] at h ⊢
      exact h
    | true =>
      cases hv2 : FSM.is_valid_state m cur with
      | false =>
        simp [hv1, hv2] at h ⊢
        exact h
      | true =>
        unfold FSM.transitions at h ⊢
        cases hd : dictGet m.transition_functions (cur, a) with
        | none =>
          simp [hv1, hv2, hd] at h ⊢
          exact h
        | some next =>
          simp [hv1, hv2, hd] at h
          show (match FSM.runAux m next (rest ++ ext) with
            | .error e => (.error e : Except RunError (String × List (Option String)))
            | .ok (final, outs1) =>
              .ok (final, FSM.get_output m cur (some a) :: outs1))
            = .error e
          cases hrec : FSM.runAux m next rest with
          | error e2 =>
            rw [hrec] at h
            simp at h
            rw [ih ext hrec]
            simp [h]
          | ok p =>
            obtain ⟨f0, outs0⟩ := p
            rw [hrec] at h
            simp at h

theorem run_error_iff {m : FSMModel} {seq : List String} {c : Bool}
    {e : RunError} :
    FSM.run m seq c = .error e ↔
    FSM.runAux m m.initial_state seq = .error e := by
  unfold FSM.run
  cases hrec : FSM.runAux m m.initial_state seq with
  | error e2 => simp
  | ok p =>
    obtain ⟨f, outs⟩ := p
    cases c <;> simp

theorem runAux_no_invalid_state {m : FSMModel}
    (hTrans : ∀ p ∈ m.transition_functions, m.states.contains p.2 = true) :
    ∀ {seq : List String} {cur : String}, m.states.contains cur = true →
    isInvalidStateError (FSM.runAux m cur seq) = false := by
  intro seq
  induction seq with
  | nil => intro cur hcur; rfl
  | cons a rest ih =>
    intro cur hcur
    unfold FSM.runAux
    cases hv1 : FSM.is_valid_input m a with
    | false => rfl
    | true =>
      have hv2 : FSM.is_valid_state m cur = true := hcur
      rw [hv2]
      show isInvalidStateError (match FSM.transitions m cur a with
        | .error e => (.error e : Except RunError (String × List (Option String)))
        | .ok next =>
          match FSM.runAux m next rest with
          | .error e => .error e
          | .ok (final, outs1) =>
            .ok (final, FSM.get_output m cur (some a) :: outs1)) = false
      unfold FSM.transitions
      cases hd : dictGet m.transition_functions (cur, a) with
      | none => rfl
      | some next =>
        show isInvalidStateError (match FSM.runAux m next rest with
          | .error e => (.error e : Except RunError (String × List (Option String)))
          | .ok (final, outs1) =>
            .ok (final, FSM.get_output m cur (some a) :: outs1)) = false
        have hnext : m.states.contains next = true :=
          hTrans ((cur, a), next) (dictGet_some_mem hd)
        have hrec := ih hnext
        cases hr : FSM.runAux m next rest with
        | error e2 =>
          rw [hr] at hrec
          exact hrec
        | ok p =>
          obtain ⟨f0, outs0⟩ := p
          rfl

/-! ## Claims -/

/-- C6. For every engine, `run` on the empty input sequence returns
`initial_state`, and with `collect_outputs` it returns the pair of
`initial_state` and the one-element trace holding only the trailing
no-symbol sample `get_output(initial_state)`. Proved for every raw
definition, validated or not, which subsumes the claim about validated
engines. -/
theorem run_empty_returns_initial (m : FSMModel) :
    FSM.run m [] false = .ok (.state m.initial_state) ∧
    FSM.run m [] true
      = .ok (.stateWithOutputs m.initial_state
          [FSM.get_output m m.initial_state none]) :=
  ⟨rfl, rfl⟩

/-- C8. The Moore traffic-light scenario: construction succeeds, and
`run(["Timer","Timer","Timer"], collect_outputs=True)` returns final state
`Red` with trace `[STOP, GO, CAUTION, STOP]`. -/
theorem traffic_light_scenario :
    FSM.make trafficLight = .ok trafficLight ∧
    FSM.run trafficLight ["Timer", "Timer", "Timer"] true
      = .ok (.stateWithOutputs "Red"
          [some "STOP", some "GO", some "CAUTION", some "STOP"]) :=
  ⟨rfl, rfl⟩

/-- C2. When both output maps are configured (supplied and non-empty, the
test the Python truthiness check performs) and a symbol is supplied,
`get_output` returns the Mealy lookup even when that (state, symbol) pair
is absent: the result is `none`, not the Moore output, and it is unchanged
under any replacement of `state_outputs` — the Moore map is never
consulted. -/
theorem mealy_precedence_no_moore_fallback (m : FSMModel)
    (so2 : Option (List (String × String))) (state input_symbol : String)
    (_h1 : truthy m.state_outputs = true)
    (h2 : truthy m.transition_outputs = true)
    (h3 : dictGet (m.transition_outputs.getD []) (state, input_symbol) = none) :
    FSM.get_output m state (some input_symbol) = none ∧
    FSM.get_output { m with state_outputs := so2 } state (some input_symbol)
      = none := by
  constructor <;> simp [FSM.get_output, h2, h3]

/-- Witness for C2 on `mixedOutputs`: the pair (A, y) is absent from the
Mealy map, and the output is absent rather than the Moore output of A. -/
theorem mealy_precedence_no_moore_fallback_witness :
    FSM.get_output mixedOutputs "A" (some "y") = none ∧
    FSM.get_output { mixedOutputs with state_outputs := some [("B", "z")] }
      "A" (some "y") = none :=
  mealy_precedence_no_moore_fallback mixedOutputs (some [("B", "z")]) "A" "y"
    (by decide) (by decide) (by decide)

/-- C9. An empty (but supplied) Mealy map is falsy in Python, so
`get_output` with a supplied symbol behaves exactly as with an
unconfigured one: it falls back to the Moore branch, returning the Moore
lookup when `state_outputs` is configured (truthy) and `none` otherwise. -/
theorem empty_mealy_falls_back_to_moore (m : FSMModel)
    (state input_symbol : String)
    (h : m.transition_outputs = some []) :
    FSM.get_output m state (some input_symbol)
      = FSM.get_output { m with transition_outputs := none }
          state (some input_symbol)
    ∧ (truthy m.state_outputs = true →
        FSM.get_output m state (some input_symbol)
          = dictGet (m.state_outputs.getD []) state)
    ∧ (truthy m.state_outputs = false →
        FSM.get_output m state (some input_symbol) = none) := by
  have hf : truthy m.transition_outputs = false := by rw [h]; rfl
  refine ⟨?_, ?_, ?_⟩
  · simp [FSM.get_output, hf]
  · intro h2
    simp [FSM.get_output, hf, h2]
  · intro h2
    simp [FSM.get_output, hf, h2]

/-- Witness for C9: on `mixedOutputs` with its Mealy map emptied, the
output for (A, y) is the Moore output of A. -/
theorem empty_mealy_falls_back_to_moore_witness :
    FSM.get_output { mixedOutputs with transition_outputs := some [] }
        "A" (some "y")
      = FSM.get_output { { mixedOutputs with transition_outputs := some [] }
          with transition_outputs := none } "A" (some "y")
    ∧ (truthy { mixedOutputs with transition_outputs := some [] }.state_outputs
        = true →
        FSM.get_output { mixedOutputs with transition_outputs := some [] }
            "A" (some "y")
          = dictGet ({ mixedOutputs with
              transition_outputs := some [] }.state_outputs.getD []) "A")
    ∧ (truthy { mixedOutputs with transition_outputs := some [] }.state_outputs
        = false →
        FSM.get_output { mixedOutputs with transition_outputs := some [] }
            "A" (some "y") = none) :=
  empty_mealy_falls_back_to_moore
    { mixedOutputs with transition_outputs := some [] } "A" "y" rfl

/-- C10. `get_output` is total: for every state and optional symbol —
members of the declared sets or not — it returns `none` or a value
configured in one of the two output maps; being a pure function of the
immutable definition, it raises nothing and mutates nothing. -/
theorem get_output_total_and_configured (m : FSMModel) (state : String)
    (oa : Option String) :
    FSM.get_output m state oa = none ∨
    ∃ v, FSM.get_output m state oa = some v ∧
      ((∃ a t, oa = some a ∧ m.transition_outputs = some t
          ∧ ((state, a), v) ∈ t)
       ∨ (∃ so, m.state_outputs = some so ∧ (state, v) ∈ so)) := by
  by_cases hc : (truthy m.transition_outputs && oa.isSome) = true
  · have hc2 : truthy m.transition_outputs = true ∧ oa.isSome = true := by
      simpa using hc
    obtain ⟨ht, ho⟩ := hc2
    obtain ⟨t, htr, -⟩ := truthy_eq_true_iff.mp ht
    have ht2 : truthy (some t) = true := htr ▸ ht
    obtain ⟨a, ha⟩ := Option.isSome_iff_exists.mp ho
    subst ha
    rcases hfind : dictGet t (state, a) with - | v
    · left
      simp [FSM.get_output, ht2, htr, hfind]
    · right
      refine ⟨v, ?_, Or.inl ⟨a, t, rfl, htr, dictGet_some_mem hfind⟩⟩
      simp [FSM.get_output, ht2, htr, hfind]
  · by_cases hs : truthy m.state_outputs = true
    · obtain ⟨so, hso, -⟩ := truthy_eq_true_iff.mp hs
      have hs2 : truthy (some so) = true := hso ▸ hs
      rcases hfind : dictGet so state with - | v
      · left
        simp [FSM.get_output, hc, hso, hs2, hfind]
      · right
        refine ⟨v, ?_, Or.inr ⟨so, hso, dictGet_some_mem hfind⟩⟩
        simp [FSM.get_output, hc, hso, hs2, hfind]
    · left
      simp [FSM.get_output, hc, hs]

/-- C1, amended. For every raw definition with non-empty `states`,
non-empty `alphabet` AND a non-empty `initial_state` string, construction
succeeds (yielding the definition unchanged, all-or-nothing in the
`Except`) if and only if all six referential-integrity invariants hold;
and every construction error names a genuine offender of its definition
(the offending state, symbol, pair or field). The extra `initial_state`
hypothesis is forced by the pydantic `min_length=1` field constraint,
which rejects an empty-string initial state before the invariants are
ever checked (see the counterexample). -/
theorem construction_succeeds_iff_invariants (m : FSMModel)
    (h1 : m.states.isEmpty = false) (h2 : m.alphabet.isEmpty = false)
    (h3 : m.initial_state.isEmpty = false) :
    (FSM.make m = .ok m ↔ invariantsHold m = true) ∧ makeErrorGenuine m :=
  ⟨make_ok_iff h1 h2 h3, make_error_genuine m⟩

/-- Witness for C1 at the concrete machine `mixedOutputs`. -/
theorem construction_succeeds_iff_invariants_witness :
    (FSM.make mixedOutputs = .ok mixedOutputs
      ↔ invariantsHold mixedOutputs = true)
    ∧ makeErrorGenuine mixedOutputs :=
  construction_succeeds_iff_invariants mixedOutputs rfl rfl rfl

/-- Counterexample to C1 as stated: `emptyNameInitial` has non-empty
states and alphabet and satisfies all six referential-integrity
invariants (its initial state, the empty string, IS in `states`), yet
construction fails — the pydantic `min_length=1` constraint on
`initial_state` rejects it before `validate_transitions` runs. -/
theorem construction_min_length_counterexample :
    emptyNameInitial.states.isEmpty = false
    ∧ emptyNameInitial.alphabet.isEmpty = false
    ∧ invariantsHold emptyNameInitial = true
    ∧ FSM.make emptyNameInitial = .error (.fieldTooShort "initial_state") :=
  ⟨rfl, rfl, by decide, rfl⟩

/-- C4. A successful collecting run over N input symbols returns a trace
of exactly N + 1 elements. -/
theorem trace_length_succ (m : FSMModel) (seq : List String) (f : String)
    (trace : List (Option String))
    (h : FSM.run m seq true = .ok (.stateWithOutputs f trace)) :
    trace.length = seq.length + 1 := by
  unfold FSM.run at h
  cases hrec : FSM.runAux m m.initial_state seq with
  | error e => rw [hrec] at h; simp at h
  | ok p =>
    obtain ⟨f0, outs⟩ := p
    rw [hrec] at h
    replace h : (Except.ok (RunResult.stateWithOutputs f0
        (outs ++ [FSM.get_output m f0 none])) : Except RunError RunResult)
      = .ok (.stateWithOutputs f trace) := h
    injection h with hr
    injection hr with hf ht
    subst hf
    subst ht
    have hl := runAux_ok_length hrec
    simp [hl]

/-- Witness for C4 on the traffic light: three symbols, four samples. -/
theorem trace_length_succ_witness :
    ([some "STOP", some "GO", some "CAUTION", some "STOP"]
      : List (Option String)).length
    = (["Timer", "Timer", "Timer"] : List String).length + 1 :=
  trace_length_succ trafficLight ["Timer", "Timer", "Timer"] "Red"
    [some "STOP", some "GO", some "CAUTION", some "STOP"] rfl

/-- C3. On a successful collecting run the trace consists of the
pre-transition samples `output_for(state-before-step-i, symbol-i)` along
the execution path, followed by one trailing no-symbol sample of the
final state; and when no Moore outputs are configured (truthy), that
trailing element is necessarily absent. -/
theorem trace_samples_pre_transition_outputs (m : FSMModel)
    (seq : List String) (f : String) (trace : List (Option String))
    (h : FSM.run m seq true = .ok (.stateWithOutputs f trace)) :
    traceMatchesPath m seq f trace
    ∧ (truthy m.state_outputs = false → trace.getLast? = some none) := by
  unfold FSM.run at h
  cases hrec : FSM.runAux m m.initial_state seq with
  | error e => rw [hrec] at h; simp at h
  | ok p =>
    obtain ⟨f0, outs⟩ := p
    rw [hrec] at h
    replace h : (Except.ok (RunResult.stateWithOutputs f0
        (outs ++ [FSM.get_output m f0 none])) : Except RunError RunResult)
      = .ok (.stateWithOutputs f trace) := h
    injection h with hr
    injection hr with hf ht
    subst hf
    subst ht
    obtain ⟨path, hp, hl, hz⟩ := runAux_ok_path hrec
    constructor
    · exact ⟨path, hp, hl, by rw [hz]⟩
    · intro hmo
      have hg : FSM.get_output m f0 none = none := by
        simp [FSM.get_output, hmo]
      rw [hg]
      simp

/-- Witness for C3 on `mixedOutputs` running the single symbol x. -/
theorem trace_samples_pre_transition_outputs_witness :
    traceMatchesPath mixedOutputs ["x"] "B" [some "mealyAx", some "mooreB"]
    ∧ (truthy mixedOutputs.state_outputs = false →
        ([some "mealyAx", some "mooreB"]
          : List (Option String)).getLast? = some none) :=
  trace_samples_pre_transition_outputs mixedOutputs ["x"] "B"
    [some "mealyAx", some "mooreB"] rfl

/-- C5. Every run failure is genuine — an invalid-symbol error names an
input symbol outside the alphabet, an invalid-state error names a state
outside the state set, an undefined-transition error names a pair with no
entry — and the run aborts at the first such error: appending any further
input (with any collect flag) yields the very same error, so no partial
trace is ever produced (the `Except` result is all-or-nothing). -/
theorem run_aborts_on_first_error (m : FSMModel) (seq ext : List String)
    (c c2 : Bool) (e : RunError) (h : FSM.run m seq c = .error e) :
    RunError.genuine m seq e ∧ FSM.run m (seq ++ ext) c2 = .error e := by
  have h0 := run_error_iff.mp h
  exact ⟨runAux_error_genuine h0,
    run_error_iff.mpr (runAux_error_extend ext h0)⟩

/-- Witness for C5: the spec §8 error scenario on the lock/unlock DFA,
aborting on the symbol InvalidSymbol whatever comes after it. -/
theorem run_aborts_on_first_error_witness :
    RunError.genuine lockFSM ["Coin", "InvalidSymbol"]
      (.invalidSymbol "InvalidSymbol")
    ∧ FSM.run lockFSM (["Coin", "InvalidSymbol"] ++ ["Push"]) true
      = .error (.invalidSymbol "InvalidSymbol") :=
  run_aborts_on_first_error lockFSM ["Coin", "InvalidSymbol"] ["Push"]
    false true (.invalidSymbol "InvalidSymbol") rfl

/-- C7. On a validated definition the defensive invalid-state branch of
the run loop can never fire: the initial state is in `states` by
invariant 3 and every transition target is in `states` by invariant 1, so
no run, on any input and with any collect flag, returns the invalid-state
error. -/
theorem invalid_state_check_unreachable (m : FSMModel) (seq : List String)
    (c : Bool) (h : invariantsHold m = true) :
    isInvalidStateError (FSM.run m seq c) = false := by
  simp only [invariantsHold, Bool.and_eq_true] at h
  obtain ⟨⟨⟨⟨hTf, hInit⟩, -⟩, -⟩, -⟩ := h
  have hTrans : ∀ p ∈ m.transition_functions, m.states.contains p.2 = true := by
    intro p hp
    have hx := List.all_eq_true.mp hTf p hp
    simp [Bool.and_eq_true] at hx
    simpa using hx.1.2
  have hInit2 : m.states.contains m.initial_state = true := hInit
  have haux := @runAux_no_invalid_state m hTrans seq m.initial_state hInit2
  unfold FSM.run
  cases hrec : FSM.runAux m m.initial_state seq with
  | error e =>
    rw [hrec] at haux
    cases e with
    | invalidState s => simp [isInvalidStateError] at haux
    | invalidSymbol a => rfl
    | transitionNotDefined s a => rfl
  | ok p =>
    obtain ⟨f, outs⟩ := p
    cases c <;> rfl

/-- Witness for C7 on the lock/unlock DFA (a run that ends in an
undefined-transition-free, valid execution). -/
theorem invalid_state_check_unreachable_witness :
    isInvalidStateError (FSM.run lockFSM ["Push", "Coin"] false) = false :=
  invalid_state_check_unreachable lockFSM ["Push", "Coin"] false (by decide)

end DFSM
